import Mathlib

/-!
Verification of the goviking context database core against its
natural-language specification.

The Go source is shallowly embedded: structs become structures, methods
become pure functions (mutation of a receiver becomes a returned updated
value), `float64` score/importance arithmetic is modelled exactly over `ℚ`
(none of the verified properties depends on floating-point rounding),
`int`/`int64` counters that stay non-negative are modelled as `ℕ`, and
external oracles (clock, uuid generator, LLM provider, vector store) become
explicit function parameters.
-/

namespace GoViking

/-! ## Core data model (`pkg/core/context.go`) -/

/-- `ContextTier` from `pkg/core/context.go`: L0/L1/L2 priority classes. -/
inductive ContextTier where
  | L0
  | L1
  | L2
deriving DecidableEq, Repr

/-- `Context` from `pkg/core/context.go`, restricted to the fields the
tier/window logic reads (`URI`, `Abstract`, `Tier`, `ActiveCount`, `IsLeaf`);
identifiers, timestamps, vectors and metadata are carried by the Go struct but
never inspected by the functions verified here. -/
structure Context where
  uri : String
  abstract : String
  tier : ContextTier
  activeCount : Nat
  isLeaf : Bool
deriving DecidableEq, Repr

/-- `TieredContext` from `pkg/core/context.go`: one list per tier. -/
structure TieredContext where
  L0 : List Context
  L1 : List Context
  L2 : List Context
deriving DecidableEq, Repr

/-- `TieredContext.Add`: append the context to the bucket named by its
`Tier` field (the `default` branch of the Go switch also lands in L1). -/
def TieredContext.Add (tc : TieredContext) (ctx : Context) : TieredContext :=
  match ctx.tier with
  | .L0 => { tc with L0 := tc.L0 ++ [ctx] }
  | .L1 => { tc with L1 := tc.L1 ++ [ctx] }
  | .L2 => { tc with L2 := tc.L2 ++ [ctx] }

/-- `TieredContext.GetAll`: all contexts in tier order L0, L1, L2. -/
def TieredContext.GetAll (tc : TieredContext) : List Context :=
  tc.L0 ++ tc.L1 ++ tc.L2

/-- `removeFromSlice` from `pkg/core/context.go`: delete the first element
with the given URI; the Bool is the Go return value (something was removed). -/
def removeFromSlice : List Context → String → Bool × List Context
  | [], _ => (false, [])
  | c :: rest, uri =>
    if c.uri = uri then (true, rest)
    else
      let r := removeFromSlice rest uri
      (r.1, c :: r.2)

/-- `findContextByURIInSlices` from `pkg/core/context.go`. -/
def findContextByURIInSlices : List (List Context) → String → Option Context
  | [], _ => none
  | slice :: slices, uri =>
    match slice.find? (fun c => c.uri = uri) with
    | some c => some c
    | none => findContextByURIInSlices slices uri

/-- `TieredContext.GetByURI`: search L0, then L1, then L2. -/
def TieredContext.GetByURI (tc : TieredContext) (uri : String) : Option Context :=
  findContextByURIInSlices [tc.L0, tc.L1, tc.L2] uri

/-- `TieredContext.MoveToTier` from `pkg/core/context.go` (lines 478-521),
embedded exactly as written: first a conditional removal (whose branch for L0
re-searches the already-updated L0 bucket), then — because the context was
already removed — a second search over all buckets, a second round of removals,
and the reinsertion.  The Go method mutates the receiver in place, so the
returned `TieredContext` reflects every mutation performed before an early
`return false`. -/
def TieredContext.MoveToTier (tc : TieredContext) (uri : String)
    (tier : ContextTier) : Bool × TieredContext :=
  let r0 := removeFromSlice tc.L0 uri
  let step :
      Option (Option Context × TieredContext) :=
    if r0.1 then
      -- ctx is re-searched in the L0 bucket the removal just updated
      some (findContextByURIInSlices [r0.2] uri, { tc with L0 := r0.2 })
    else
      let r1 := removeFromSlice tc.L1 uri
      if r1.1 then some (none, { tc with L1 := r1.2 })
      else
        let r2 := removeFromSlice tc.L2 uri
        if r2.1 then some (none, { tc with L2 := r2.2 })
        else none
  match step with
  | none => (false, tc)
  | some (ctxFound, tc1) =>
    let ctx? :=
      match ctxFound with
      | some c => some c
      | none => findContextByURIInSlices [tc1.L0, tc1.L1, tc1.L2] uri
    match ctx? with
    | none => (false, tc1)
    | some ctx =>
      let tc2 : TieredContext :=
        { L0 := (removeFromSlice tc1.L0 uri).2
          L1 := (removeFromSlice tc1.L1 uri).2
          L2 := (removeFromSlice tc1.L2 uri).2 }
      let moved := { ctx with tier := tier }
      match tier with
      | .L0 => (true, { tc2 with L0 := tc2.L0 ++ [moved] })
      | .L1 => (true, { tc2 with L1 := tc2.L1 ++ [moved] })
      | .L2 => (true, { tc2 with L2 := tc2.L2 ++ [moved] })

/-- Modelled from the spec: the intended semantics of `Move(uri, tier)`
(§4.2/§9 — remove the context from whichever tier holds it, then reinsert it
in the target tier; report failure and change nothing when the URI is absent). -/
def MoveToTierSpec (tc : TieredContext) (uri : String)
    (tier : ContextTier) : Bool × TieredContext :=
  match tc.GetByURI uri with
  | none => (false, tc)
  | some ctx =>
    let cleared : TieredContext :=
      { L0 := (removeFromSlice tc.L0 uri).2
        L1 := (removeFromSlice tc.L1 uri).2
        L2 := (removeFromSlice tc.L2 uri).2 }
    (true, cleared.Add { ctx with tier := tier })

/-! ## Window manager (`pkg/core/window.go`) -/

/-- `ContextWindowConfig`, restricted to the fields `FitInWindow` and
`AddContext` read. -/
structure ContextWindowConfig where
  maxTokens : Nat
  minL0Retention : Nat
deriving Repr

/-- Token usage of a list of contexts: sum of `CountTokens` over abstracts.
`cnt` is the injected `TokenCounter` implementation. -/
def sumTokens (cnt : String → Nat) (l : List Context) : Nat :=
  (l.map (fun c => cnt c.abstract)).sum

/-- `ContextWindow.currentTokensUnsafe`. -/
def currentTokens (cnt : String → Nat) (tc : TieredContext) : Nat :=
  sumTokens cnt tc.GetAll

/-- The trimming loop of `ContextWindow.FitInWindow` (lines 134-148):
walk the prioritized list, include a context while it fits, and force-include
an L0 context when fewer than `MinL0Retention` contexts have been kept. -/
def fitLoop (cnt : String → Nat) (cfg : ContextWindowConfig) :
    List Context → List Context → Nat → List Context
  | [], result, _ => result
  | ctx :: rest, result, cur =>
    let tokens := cnt ctx.abstract
    if cur + tokens ≤ cfg.maxTokens then
      fitLoop cnt cfg rest (result ++ [ctx]) (cur + tokens)
    else if ctx.tier = .L0 ∧ result.length < cfg.minL0Retention then
      fitLoop cnt cfg rest (result ++ [ctx]) (cur + tokens)
    else
      fitLoop cnt cfg rest result cur

/-- `ContextWindow.FitInWindow` from `pkg/core/window.go` (lines 98-151). -/
def FitInWindow (cnt : String → Nat) (cfg : ContextWindowConfig)
    (tc : TieredContext) : List Context :=
  let prioritized := tc.L0 ++ tc.L1 ++ tc.L2
  if sumTokens cnt prioritized ≤ cfg.maxTokens then prioritized
  else fitLoop cnt cfg prioritized [] 0

/-- `ContextWindow.AddContext` from `pkg/core/window.go` (lines 176-192):
reject (leaving the tiers untouched) when the add would exceed `MaxTokens`,
otherwise delegate to `TieredContext.Add`.  The Bool is success. -/
def AddContext (cnt : String → Nat) (cfg : ContextWindowConfig)
    (tc : TieredContext) (ctx : Context) : Bool × TieredContext :=
  if cfg.maxTokens < currentTokens cnt tc + cnt ctx.abstract then (false, tc)
  else (true, tc.Add ctx)

/-- A tier population is well formed when every context sits in the bucket
named by its own `Tier` field — the invariant `TieredContext.Add` and a
successful move maintain. -/
def TiersWellFormed (tc : TieredContext) : Prop :=
  (∀ c ∈ tc.L0, c.tier = .L0) ∧ (∀ c ∈ tc.L1, c.tier = .L1) ∧
    (∀ c ∈ tc.L2, c.tier = .L2)

/-- Helper for `strings.Fields`: split a character list on whitespace,
accumulating the current word reversed. -/
def fieldsAux : List Char → List Char → List String
  | [], cur => if cur.isEmpty then [] else [⟨cur.reverse⟩]
  | c :: cs, cur =>
    if c.isWhitespace then
      if cur.isEmpty then fieldsAux cs [] else ⟨cur.reverse⟩ :: fieldsAux cs []
    else fieldsAux cs (c :: cur)

/-- Go's `strings.Fields`: the whitespace-separated words of a string. -/
def goFields (s : String) : List String := fieldsAux s.data []

/-- `SimpleTokenCounter.CountTokens` (`pkg/core/builder.go` lines 251-258). -/
def SimpleCountTokens (text : String) : Nat :=
  if goFields text = [] then 0 else (text.length + 3) / 4

/-! ## C1: `MoveToTier` on a singly-held URI loses the context -/

/-- The tier population holding exactly one context, at URI `viking://a`
in tier L1. -/
def tcOne : TieredContext :=
  { L0 := [], L1 := [⟨"viking://a", "alpha", .L1, 0, false⟩], L2 := [] }

/-- C1. `Move(uri, tier)` is not atomic in the source: on a tiered context
holding the URI `viking://a` exactly once (in L1), `MoveToTier` first removes
the context and then fails to re-find it, so it reports failure *and* the
context has vanished from every tier — the store has lost it.  The
specification's intended semantics (`MoveToTierSpec`: remove from any tier,
reinsert in the target) instead succeeds and lands the context in L0. -/
theorem moveToTier_loses_context :
    tcOne.MoveToTier "viking://a" .L0 = (false, { L0 := [], L1 := [], L2 := [] }) ∧
    tcOne.GetByURI "viking://a" =
      some ⟨"viking://a", "alpha", .L1, 0, false⟩ ∧
    (tcOne.MoveToTier "viking://a" .L0).2.GetByURI "viking://a" = none ∧
    MoveToTierSpec tcOne "viking://a" .L0 =
      (true, { L0 := [⟨"viking://a", "alpha", .L0, 0, false⟩], L1 := [], L2 := [] }) := by
  refine ⟨?_, ?_, ?_, ?_⟩ <;> rfl

/-! ## C6: `FitInWindow` respects the token budget except for forced L0 -/

theorem sumTokens_append (cnt : String → Nat) (l₁ l₂ : List Context) :
    sumTokens cnt (l₁ ++ l₂) = sumTokens cnt l₁ + sumTokens cnt l₂ := by
  simp [sumTokens]

/-- Invariant carried through the L0 prefix of the trimming loop: the
accumulator matches the kept contexts, everything kept is L0, and a budget
overrun can only have come from forced keeps, of which there are at most
`MinL0Retention`. -/
theorem fitLoop_l0_phase (cnt : String → Nat) (cfg : ContextWindowConfig) :
    ∀ (l rest result : List Context) (cur : Nat),
      (∀ c ∈ l, c.tier = .L0) →
      cur = sumTokens cnt result →
      (∀ c ∈ result, c.tier = .L0) →
      (cur ≤ cfg.maxTokens ∨
        (cfg.maxTokens < cur ∧ result.length ≤ cfg.minL0Retention)) →
      ∃ result' cur',
        fitLoop cnt cfg (l ++ rest) result cur = fitLoop cnt cfg rest result' cur' ∧
        cur' = sumTokens cnt result' ∧ (∀ c ∈ result', c.tier = .L0) ∧
        (cur' ≤ cfg.maxTokens ∨
          (cfg.maxTokens < cur' ∧ result'.length ≤ cfg.minL0Retention)) := by
  intro l
  induction l with
  | nil =>
    intro rest result cur _ hcur hall hdisj
    exact ⟨result, cur, rfl, hcur, hall, hdisj⟩
  | cons c l ih =>
    intro rest result cur hl0 hcur hall hdisj
    have hc : c.tier = .L0 := hl0 c (List.mem_cons_self c l)
    have hl0' : ∀ x ∈ l, x.tier = .L0 := fun x hx => hl0 x (List.mem_cons_of_mem c hx)
    have hall' : ∀ x ∈ result ++ [c], x.tier = .L0 := by
      intro x hx
      rcases List.mem_append.mp hx with h | h
      · exact hall x h
      · simpa [List.mem_singleton.mp h] using hc
    have hsum' : cur + cnt c.abstract = sumTokens cnt (result ++ [c]) := by
      rw [sumTokens_append, hcur]
      simp [sumTokens]
    by_cases hfit : cur + cnt c.abstract ≤ cfg.maxTokens
    · have hstep :
          fitLoop cnt cfg ((c :: l) ++ rest) result cur =
            fitLoop cnt cfg (l ++ rest) (result ++ [c]) (cur + cnt c.abstract) := by
        simp [fitLoop, hfit]
      rw [hstep]
      exact ih rest (result ++ [c]) _ hl0' hsum' hall' (Or.inl hfit)
    · by_cases hforce : result.length < cfg.minL0Retention
      · have hstep :
            fitLoop cnt cfg ((c :: l) ++ rest) result cur =
              fitLoop cnt cfg (l ++ rest) (result ++ [c]) (cur + cnt c.abstract) := by
          simp [fitLoop, hfit, hc, hforce]
        rw [hstep]
        refine ih rest (result ++ [c]) _ hl0' hsum' hall' (Or.inr ⟨?_, ?_⟩)
        · omega
        · simpa using hforce
      · have hstep :
            fitLoop cnt cfg ((c :: l) ++ rest) result cur =
              fitLoop cnt cfg (l ++ rest) result cur := by
          simp [fitLoop, hfit, hforce]
        rw [hstep]
        exact ih rest result cur hl0' hcur hall hdisj

/-- Invariant through the L1/L2 tail of the trimming loop: no forced keeps can
fire, so either the budget still holds or the result is the untouched overrun
block of at most `MinL0Retention` L0 contexts. -/
theorem fitLoop_rest_phase (cnt : String → Nat) (cfg : ContextWindowConfig) :
    ∀ (l result : List Context) (cur : Nat),
      (∀ c ∈ l, c.tier ≠ .L0) →
      cur = sumTokens cnt result →
      (cur ≤ cfg.maxTokens ∨
        ((∀ c ∈ result, c.tier = .L0) ∧ result.length ≤ cfg.minL0Retention ∧
          cfg.maxTokens < cur)) →
      sumTokens cnt (fitLoop cnt cfg l result cur) ≤ cfg.maxTokens ∨
        ((∀ c ∈ fitLoop cnt cfg l result cur, c.tier = .L0) ∧
          (fitLoop cnt cfg l result cur).length ≤ cfg.minL0Retention) := by
  intro l
  induction l with
  | nil =>
    intro result cur _ hcur hdisj
    rcases hdisj with h | ⟨h1, h2, _⟩
    · exact Or.inl (by simpa [fitLoop, hcur] using h)
    · exact Or.inr ⟨by simpa [fitLoop] using h1, by simpa [fitLoop] using h2⟩
  | cons c l ih =>
    intro result cur hnl0 hcur hdisj
    have hc : c.tier ≠ .L0 := hnl0 c (List.mem_cons_self c l)
    have hnl0' : ∀ x ∈ l, x.tier ≠ .L0 := fun x hx => hnl0 x (List.mem_cons_of_mem c hx)
    by_cases hfit : cur + cnt c.abstract ≤ cfg.maxTokens
    · have hstep :
          fitLoop cnt cfg (c :: l) result cur =
            fitLoop cnt cfg l (result ++ [c]) (cur + cnt c.abstract) := by
        simp [fitLoop, hfit]
      rw [hstep]
      refine ih (result ++ [c]) _ hnl0' ?_ (Or.inl hfit)
      rw [sumTokens_append, hcur]; simp [sumTokens]
    · have hstep :
          fitLoop cnt cfg (c :: l) result cur = fitLoop cnt cfg l result cur := by
        simp [fitLoop, hfit, hc]
      rw [hstep]
      exact ih result cur hnl0' hcur hdisj

/-- C6. For every window configuration, token counter and well-formed tier
population, the contexts selected by `FitInWindow` total at most `MaxTokens` —
except that when fewer than `MinL0Retention` L0 contexts would otherwise fit,
the result may overrun, in which case it consists solely of L0 contexts and
has at most `MinL0Retention` of them. -/
theorem fitInWindow_budget (cnt : String → Nat) (cfg : ContextWindowConfig)
    (tc : TieredContext) (hwf : TiersWellFormed tc) :
    sumTokens cnt (FitInWindow cnt cfg tc) ≤ cfg.maxTokens ∨
      ((∀ c ∈ FitInWindow cnt cfg tc, c.tier = .L0) ∧
        (FitInWindow cnt cfg tc).length ≤ cfg.minL0Retention) := by
  obtain ⟨h0, h1, h2⟩ := hwf
  unfold FitInWindow
  by_cases hall : sumTokens cnt (tc.L0 ++ tc.L1 ++ tc.L2) ≤ cfg.maxTokens
  · rw [if_pos hall]
    exact Or.inl hall
  · rw [if_neg hall, List.append_assoc]
    obtain ⟨result', cur', heq, hcur', hall', hdisj'⟩ :=
      fitLoop_l0_phase cnt cfg tc.L0 (tc.L1 ++ tc.L2) [] 0 h0 (by simp [sumTokens])
        (by simp) (Or.inl (Nat.zero_le _))
    rw [heq]
    refine fitLoop_rest_phase cnt cfg (tc.L1 ++ tc.L2) result' cur' ?_ hcur' ?_
    · intro c hcmem
      rcases List.mem_append.mp hcmem with h | h
      · rw [h1 c h]; intro hcontra; cases hcontra
      · rw [h2 c h]; intro hcontra; cases hcontra
    · rcases hdisj' with h | ⟨ha, hb⟩
      · exact Or.inl h
      · exact Or.inr ⟨hall', hb, ha⟩

/-- Concrete instantiation of `fitInWindow_budget`: budget 10 tokens,
`MinL0Retention = 1`, two L0 contexts of 4 and 7 tokens under the simple
token counter — the second is dropped and the 4-token result fits. -/
theorem fitInWindow_budget_witness :
    TiersWellFormed
      { L0 := [⟨"a", "aaaaaaaaaaaaaaaa", .L0, 0, false⟩,
               ⟨"b", "bbbbbbbbbbbbbbbbbbbbbbbbbbbb", .L0, 0, false⟩],
        L1 := [], L2 := [] } ∧
    (sumTokens SimpleCountTokens
        (FitInWindow SimpleCountTokens ⟨10, 1⟩
          { L0 := [⟨"a", "aaaaaaaaaaaaaaaa", .L0, 0, false⟩,
                   ⟨"b", "bbbbbbbbbbbbbbbbbbbbbbbbbbbb", .L0, 0, false⟩],
            L1 := [], L2 := [] }) ≤ 10 ∨
      ((∀ c ∈ FitInWindow SimpleCountTokens ⟨10, 1⟩
          { L0 := [⟨"a", "aaaaaaaaaaaaaaaa", .L0, 0, false⟩,
                   ⟨"b", "bbbbbbbbbbbbbbbbbbbbbbbbbbbb", .L0, 0, false⟩],
            L1 := [], L2 := [] }, c.tier = .L0) ∧
        (FitInWindow SimpleCountTokens ⟨10, 1⟩
          { L0 := [⟨"a", "aaaaaaaaaaaaaaaa", .L0, 0, false⟩,
                   ⟨"b", "bbbbbbbbbbbbbbbbbbbbbbbbbbbb", .L0, 0, false⟩],
            L1 := [], L2 := [] }).length ≤ 1)) := by
  constructor
  · refine ⟨?_, ?_, ?_⟩ <;> decide
  · exact fitInWindow_budget SimpleCountTokens ⟨10, 1⟩ _ (by refine ⟨?_, ?_, ?_⟩ <;> decide)

/-! ## C10: `AddContext` accepts exactly up to `MaxTokens` and is atomic -/

/-- C10. `AddContext` succeeds whenever the resulting total is at most
`MaxTokens` (an add landing exactly on the budget is accepted, since the Go
rejection test is strict `>`), and whenever it reports failure the tier
population is returned untouched and the add would indeed have overrun. -/
theorem addContext_spec (cnt : String → Nat) (cfg : ContextWindowConfig)
    (tc : TieredContext) (ctx : Context) :
    (currentTokens cnt tc + cnt ctx.abstract ≤ cfg.maxTokens →
      AddContext cnt cfg tc ctx = (true, tc.Add ctx)) ∧
    ((AddContext cnt cfg tc ctx).1 = false →
      (AddContext cnt cfg tc ctx).2 = tc ∧
        cfg.maxTokens < currentTokens cnt tc + cnt ctx.abstract) := by
  constructor
  · intro h
    have : ¬ cfg.maxTokens < currentTokens cnt tc + cnt ctx.abstract := by omega
    simp [AddContext, this]
  · intro h
    by_cases hover : cfg.maxTokens < currentTokens cnt tc + cnt ctx.abstract
    · simp [AddContext, hover]
    · simp [AddContext, hover] at h

/-- Concrete instantiation of `addContext_spec` at the exact boundary: a
5-token context added to a 5-token window with `MaxTokens = 10` is accepted. -/
theorem addContext_spec_witness :
    currentTokens SimpleCountTokens
        { L0 := [⟨"a", "aaaaaaaaaaaaaaaaa", .L0, 0, false⟩], L1 := [], L2 := [] } +
      SimpleCountTokens "bbbbbbbbbbbbbbbbb" = 10 ∧
    AddContext SimpleCountTokens ⟨10, 1⟩
        { L0 := [⟨"a", "aaaaaaaaaaaaaaaaa", .L0, 0, false⟩], L1 := [], L2 := [] }
        ⟨"b", "bbbbbbbbbbbbbbbbb", .L1, 0, false⟩ =
      (true,
        { L0 := [⟨"a", "aaaaaaaaaaaaaaaaa", .L0, 0, false⟩],
          L1 := [⟨"b", "bbbbbbbbbbbbbbbbb", .L1, 0, false⟩], L2 := [] }) := by
  constructor
  · decide
  · exact (addContext_spec SimpleCountTokens ⟨10, 1⟩ _ _).1 (by decide)

/-! ## Session lifecycle (`pkg/session`, source part_008) -/

/-- Session `State`. -/
inductive SessionState where
  | active
  | paused
  | closed
deriving DecidableEq, Repr

/-- Message `Role`. -/
inductive Role where
  | user
  | assistant
  | system
  | tool
deriving DecidableEq, Repr

/-- `Message`, without the tool-call payload (not read by the verified
functions).  `createdAt` is the injected clock value. -/
structure Message where
  id : String
  sessionID : String
  role : Role
  content : String
  createdAt : Nat
deriving DecidableEq, Repr

/-- `Session` with its state, counters and timestamps; the uuid and clock
oracles appear as explicit arguments of the constructors below. -/
structure Session where
  id : String
  sessionID : String
  userID : String
  state : SessionState
  totalTurns : Nat
  totalTokens : Nat
  compressionCount : Nat
  contextsUsed : Nat
  skillsUsed : Nat
  memoriesExtracted : Nat
  summary : String
  createdAt : Nat
  updatedAt : Nat
  closedAt : Option Nat
deriving DecidableEq, Repr

/-- `NewSession`: fresh active session; `id` and `sid` stand for the two
`uuid.New()` calls, `now` for `time.Now()`. -/
def NewSession (userID id sid : String) (now : Nat) : Session :=
  { id := id, sessionID := sid, userID := userID, state := .active,
    totalTurns := 0, totalTokens := 0, compressionCount := 0,
    contextsUsed := 0, skillsUsed := 0, memoriesExtracted := 0,
    summary := "", createdAt := now, updatedAt := now, closedAt := none }

/-- `Session.Close` (part_008 lines 172-182): errors with `ErrSessionClosed`
when already closed, otherwise records state, `closed_at` and `updated_at`. -/
def SessionClose (s : Session) (now : Nat) : Except String Session :=
  if s.state = .closed then .error "session closed"
  else .ok { s with state := .closed, closedAt := some now, updatedAt := now }

/-- `Session.AddMessage` (part_008 lines 114-126), embedded exactly: it builds
the message, increments `TotalTurns` and refreshes `updated_at` — with no
inspection of `state` and no error path at all. -/
def SessionAddMessage (s : Session) (role : Role) (content : String)
    (msgID : String) (now : Nat) : Message × Session :=
  (⟨msgID, s.sessionID, role, content, now⟩,
    { s with totalTurns := s.totalTurns + 1, updatedAt := now })

/-- C2 counterexample. On the concrete session closed at time 1, a subsequent
`AddMessage` does not fail with InvalidState — it records a message with the
given content and increments `total_turns` from 0 to 1 (the method has no
error path), contradicting the claim that `AddMessage` on a closed session
fails instead of recording a message or mutating counters. -/
theorem addMessage_after_close_succeeds :
    (SessionClose (NewSession "u" "id" "sid" 0) 1).map
        (fun s =>
          (s.state, s.closedAt,
            (SessionAddMessage s .user "hello" "m1" 2).1.content,
            (SessionAddMessage s .user "hello" "m1" 2).2.totalTurns)) =
      Except.ok (.closed, some 1, "hello", 1) := rfl

/-- C2 as amended. After a successful `Close`, the state is `closed` and
`closed_at` is non-null (and closing an already-closed session errors); but
`AddMessage` performs no state check: on every session — closed included — it
returns a message carrying the given content and increments `total_turns`,
leaving the state unchanged, and it has no failure path. -/
theorem close_terminal_addMessage_unchecked (s : Session) (now : Nat) :
    (s.state ≠ .closed →
      ∃ s', SessionClose s now = .ok s' ∧ s'.state = .closed ∧
        s'.closedAt = some now) ∧
    (s.state = .closed → SessionClose s now = .error "session closed") ∧
    (∀ role content msgID now',
      (SessionAddMessage s role content msgID now').1.content = content ∧
        (SessionAddMessage s role content msgID now').2.totalTurns = s.totalTurns + 1 ∧
        (SessionAddMessage s role content msgID now').2.state = s.state) := by
  refine ⟨fun h => ?_, fun h => ?_, fun _ _ _ _ => ⟨rfl, rfl, rfl⟩⟩
  · refine ⟨{ s with state := .closed, closedAt := some now, updatedAt := now },
      ?_, rfl, rfl⟩
    simp [SessionClose, h]
  · simp [SessionClose, h]

/-- Concrete instantiation of `close_terminal_addMessage_unchecked` on a fresh
(hence non-closed) session. -/
theorem close_terminal_addMessage_unchecked_witness :
    (NewSession "u" "i" "s" 0).state ≠ .closed ∧
    ∃ s', SessionClose (NewSession "u" "i" "s" 0) 3 = .ok s' ∧
      s'.state = .closed ∧ s'.closedAt = some 3 :=
  ⟨by decide,
    (close_terminal_addMessage_unchecked (NewSession "u" "i" "s" 0) 3).1 (by decide)⟩

/-! ## Memory merge (`MemoryDeduper.MergeMemories`, source part_007) -/

/-- `ExtractedMemory` from part_006: importance is a `float64` in `[0,1]`,
modelled exactly over `ℚ`; `createdAt` is the clock value. -/
structure ExtractedMemory where
  content : String
  importance : ℚ
  category : String
  sessionID : String
  createdAt : Nat
deriving DecidableEq, Repr

/-- `MemoryDeduper.MergeMemories` (part_007 lines 232-255): reject across
categories, otherwise keep the higher-importance memory's content and combine
importances as `min(1, 0.9 · (a + b))`. -/
def MergeMemories (a b : ExtractedMemory) : Except String ExtractedMemory :=
  if a.category ≠ b.category then
    .error "cannot merge memories of different categories"
  else
    let base := if a.importance < b.importance then b else a
    .ok { content := base.content,
          importance := min 1 ((a.importance + b.importance) * (9 / 10)),
          category := base.category,
          sessionID := base.sessionID,
          createdAt := base.createdAt }

/-- C9. Merging succeeds exactly on equal categories: the merged importance is
`min(1, 0.9 · (a.importance + b.importance))`, and any cross-category merge is
rejected with an error. -/
theorem mergeMemories_spec (a b : ExtractedMemory) :
    (a.category = b.category →
      ∃ m, MergeMemories a b = .ok m ∧
        m.importance = min 1 ((9 : ℚ) / 10 * (a.importance + b.importance)) ∧
        m.category = a.category) ∧
    (a.category ≠ b.category →
      MergeMemories a b = .error "cannot merge memories of different categories") := by
  constructor
  · intro h
    refine ⟨{ content := (if a.importance < b.importance then b else a).content,
              importance := min 1 ((a.importance + b.importance) * (9 / 10)),
              category := (if a.importance < b.importance then b else a).category,
              sessionID := (if a.importance < b.importance then b else a).sessionID,
              createdAt := (if a.importance < b.importance then b else a).createdAt },
      ?_, ?_, ?_⟩
    · simp [MergeMemories, h]
    · simp [mul_comm]
    · by_cases hlt : a.importance < b.importance <;> simp [hlt, h]
  · intro h
    simp [MergeMemories, h]

/-- Concrete instantiation of `mergeMemories_spec`: equal categories merge
with importance `min(1, 0.9 · (0.6 + 0.7)) = 1`; distinct categories error. -/
theorem mergeMemories_spec_witness :
    (∃ m,
      MergeMemories ⟨"likes go", 3 / 5, "preference", "s", 0⟩
          ⟨"prefers go", 7 / 10, "preference", "s", 0⟩ = .ok m ∧
        m.importance = min 1 ((9 : ℚ) / 10 * (3 / 5 + 7 / 10)) ∧
        m.category = "preference") ∧
    MergeMemories ⟨"likes go", 3 / 5, "preference", "s", 0⟩
        ⟨"paris trip", 7 / 10, "event", "s", 0⟩ =
      .error "cannot merge memories of different categories" :=
  ⟨(mergeMemories_spec ⟨"likes go", 3 / 5, "preference", "s", 0⟩
      ⟨"prefers go", 7 / 10, "preference", "s", 0⟩).1 (by decide),
    (mergeMemories_spec ⟨"likes go", 3 / 5, "preference", "s", 0⟩
      ⟨"paris trip", 7 / 10, "event", "s", 0⟩).2 (by decide)⟩

/-! ## Compression codec (`pkg/core/compression.go`)

Go strings are byte sequences, so the texts handled by the codec are embedded
as lists of bytes (`List Nat`, each element `< 256`).  `encoding/base64`
(StdEncoding, with `=` padding) is embedded in full.  `compress/gzip` is an
external library; it is modelled by `gzipBytes`/`gunzipBytes`, which keep the
properties the claims depend on — a gzip member begins with the magic bytes
`0x1f 0x8b` and compression method byte `8` followed by the rest of the
10-byte header, and reading a written member recovers exactly the original
bytes — while abstracting the deflate bit-stream as the raw payload. -/

/-- Byte value of the base64 standard-alphabet character for a sextet. -/
def b64chr (n : Nat) : Nat :=
  if n < 26 then 65 + n
  else if n < 52 then 97 + (n - 26)
  else if n < 62 then 48 + (n - 52)
  else if n = 62 then 43
  else 47

/-- Sextet value of a base64 character byte, `none` outside the alphabet. -/
def b64val (c : Nat) : Option Nat :=
  if 65 ≤ c ∧ c ≤ 90 then some (c - 65)
  else if 97 ≤ c ∧ c ≤ 122 then some (26 + (c - 97))
  else if 48 ≤ c ∧ c ≤ 57 then some (52 + (c - 48))
  else if c = 43 then some 62
  else if c = 47 then some 63
  else none

/-- `base64.StdEncoding.EncodeToString` on a byte list: 3-byte groups become
4 characters, with `=` (byte 61) padding for the final partial group. -/
def b64encode : List Nat → List Nat
  | [] => []
  | [a] => [b64chr (a / 4), b64chr (a % 4 * 16), 61, 61]
  | [a, b] => [b64chr (a / 4), b64chr (a % 4 * 16 + b / 16), b64chr (b % 16 * 4), 61]
  | a :: b :: c :: rest =>
    b64chr (a / 4) :: b64chr (a % 4 * 16 + b / 16) ::
      b64chr (b % 16 * 4 + c / 64) :: b64chr (c % 64) :: b64encode rest

/-- `base64.StdEncoding.DecodeString`: inverse of `b64encode`; `none` models
the Go decode error (bad length, bad character, or padding not at the end). -/
def b64decode : List Nat → Option (List Nat)
  | [] => some []
  | c1 :: c2 :: c3 :: c4 :: rest =>
    match b64val c1, b64val c2 with
    | some v1, some v2 =>
      if c3 = 61 then
        if c4 = 61 ∧ rest = [] then some [v1 * 4 + v2 / 16] else none
      else if c4 = 61 then
        if rest = [] then
          match b64val c3 with
          | some v3 => some [v1 * 4 + v2 / 16, v2 % 16 * 16 + v3 / 4]
          | none => none
        else none
      else
        match b64val c3, b64val c4 with
        | some v3, some v4 =>
          (b64decode rest).map
            (fun ds => (v1 * 4 + v2 / 16) :: (v2 % 16 * 16 + v3 / 4) ::
              (v3 % 4 * 64 + v4) :: ds)
        | _, _ => none
    | _, _ => none
  | _ => none

/-- Write-then-close of `gzip.Writer`: the 10-byte member header
(magic `0x1f 0x8b`, method `8`, empty flags/mtime/xfl, OS byte 255) followed
by the payload (the deflate bit-stream abstracted as the raw bytes). -/
def gzipBytes (data : List Nat) : List Nat :=
  31 :: 139 :: 8 :: 0 :: 0 :: 0 :: 0 :: 0 :: 0 :: 255 :: data

/-- `gzip.NewReader` + `io.ReadAll`: check the member header (the reader
rejects anything not starting with the gzip magic and method byte) and return
the payload. -/
def gunzipBytes : List Nat → Option (List Nat)
  | 31 :: 139 :: 8 :: _ :: _ :: _ :: _ :: _ :: _ :: _ :: payload => some payload
  | _ => none

/-- `CompressText` (`pkg/core/compression.go` lines 23-46): empty text maps to
itself; otherwise gzip then base64. -/
def CompressText (text : List Nat) : List Nat :=
  if text = [] then [] else b64encode (gzipBytes text)

/-- `DecompressText` (`pkg/core/compression.go` lines 48-72): empty maps to
empty; a text that fails base64 decoding or the gzip header check is returned
as-is ("not compressed"); otherwise the gzip payload is returned.  The Go
error return is always `nil` on these paths, so the model is total. -/
def DecompressText (compressed : List Nat) : List Nat :=
  if compressed = [] then []
  else
    match b64decode compressed with
    | none => compressed
    | some data =>
      match gunzipBytes data with
      | none => compressed
      | some result => result

/-- `CompressibleContent` (`pkg/core/compression.go` lines 179-209). -/
structure CompressibleContent where
  original : List Nat
  compressed : List Nat
  isCompressed : Bool
deriving DecidableEq, Repr

/-- `CompressibleContent.Compress`: a no-op on empty or already-compressed
content, else store `CompressText original` and set the flag. -/
def ccCompress (c : CompressibleContent) : CompressibleContent :=
  if c.original = [] ∨ c.isCompressed then c
  else { c with compressed := CompressText c.original, isCompressed := true }

theorem b64val_b64chr : ∀ n < 64, b64val (b64chr n) = some n := by decide

theorem b64chr_ne_61 : ∀ n < 64, b64chr n ≠ 61 := by decide

/-- Standard base64 round-trip: decoding an encoded byte list recovers it. -/
theorem b64decode_b64encode :
    ∀ l : List Nat, (∀ b ∈ l, b < 256) → b64decode (b64encode l) = some l := by
  intro l
  induction l using b64encode.induct with
  | case1 => intro _; rfl
  | case2 a =>
    intro h
    have ha : a < 256 := h a (by simp)
    have h1 : b64val (b64chr (a / 4)) = some (a / 4) := b64val_b64chr _ (by omega)
    have h2 : b64val (b64chr (a % 4 * 16)) = some (a % 4 * 16) :=
      b64val_b64chr _ (by omega)
    simp only [b64encode, b64decode, h1, h2]
    simp
    omega
  | case3 a b =>
    intro h
    have ha : a < 256 := h a (by simp)
    have hb : b < 256 := h b (by simp)
    have h1 : b64val (b64chr (a / 4)) = some (a / 4) := b64val_b64chr _ (by omega)
    have h2 : b64val (b64chr (a % 4 * 16 + b / 16)) = some (a % 4 * 16 + b / 16) :=
      b64val_b64chr _ (by omega)
    have h3 : b64val (b64chr (b % 16 * 4)) = some (b % 16 * 4) :=
      b64val_b64chr _ (by omega)
    have hne3 : b64chr (b % 16 * 4) ≠ 61 := b64chr_ne_61 _ (by omega)
    simp only [b64encode, b64decode, h1, h2, h3, if_neg hne3]
    simp
    omega
  | case4 a b c rest ih =>
    intro h
    have ha : a < 256 := h a (by simp)
    have hb : b < 256 := h b (by simp)
    have hc : c < 256 := h c (by simp)
    have ih' : b64decode (b64encode rest) = some rest :=
      ih (fun x hx => h x (by simp [hx]))
    have h1 : b64val (b64chr (a / 4)) = some (a / 4) := b64val_b64chr _ (by omega)
    have h2 : b64val (b64chr (a % 4 * 16 + b / 16)) = some (a % 4 * 16 + b / 16) :=
      b64val_b64chr _ (by omega)
    have h3 : b64val (b64chr (b % 16 * 4 + c / 64)) = some (b % 16 * 4 + c / 64) :=
      b64val_b64chr _ (by omega)
    have h4 : b64val (b64chr (c % 64)) = some (c % 64) := b64val_b64chr _ (by omega)
    have hne3 : b64chr (b % 16 * 4 + c / 64) ≠ 61 := b64chr_ne_61 _ (by omega)
    have hne4 : b64chr (c % 64) ≠ 61 := b64chr_ne_61 _ (by omega)
    simp only [b64encode, b64decode, h1, h2, h3, h4, if_neg hne3, if_neg hne4, ih']
    simp
    omega

theorem b64encode_ne_nil (a : Nat) (l : List Nat) : b64encode (a :: l) ≠ [] := by
  match l with
  | [] => simp [b64encode]
  | [b] => simp [b64encode]
  | b :: c :: rest => simp [b64encode]

/-- C7 counterexample.  For the text `"hello"` (bytes 104 101 108 108 111),
`Decompress` returns it unchanged (its length is not a multiple of 4, so
base64 decoding fails and the Go code returns the input as "not compressed"),
and `Compress` of that is a fresh base64-encoded gzip member — beginning with
`H4sI`, the base64 of the gzip magic — so `Compress(Decompress(x)) ≠ x`: the
claimed round-trip composes the codec in the wrong order. -/
theorem compress_decompress_not_id :
    DecompressText [104, 101, 108, 108, 111] = [104, 101, 108, 108, 111] ∧
    CompressText (DecompressText [104, 101, 108, 108, 111]) ≠
      [104, 101, 108, 108, 111] := by
  constructor
  · rfl
  · decide

/-- C7 as amended.  The round-trip that holds is the opposite composition:
`Decompress(Compress(x)) = x` for every byte text `x` (the codec is
reversible), and compression of a `CompressibleContent` is idempotent —
a second `Compress` call is a no-op. -/
theorem decompress_compress_id (x : List Nat) (hx : ∀ b ∈ x, b < 256) :
    DecompressText (CompressText x) = x ∧
    ∀ c : CompressibleContent, ccCompress (ccCompress c) = ccCompress c := by
  constructor
  · by_cases hnil : x = []
    · simp [hnil, CompressText, DecompressText]
    · have henc : CompressText x = b64encode (gzipBytes x) := by
        simp [CompressText, hnil]
      have hbytes : ∀ b ∈ gzipBytes x, b < 256 := by
        intro b hbmem
        simp only [gzipBytes, List.mem_cons] at hbmem
        rcases hbmem with h | h | h | h | h | h | h | h | h | h | h
        all_goals first
          | (subst h; omega)
          | exact hx b h
      have hdec : b64decode (b64encode (gzipBytes x)) = some (gzipBytes x) :=
        b64decode_b64encode _ hbytes
      have hne : b64encode (gzipBytes x) ≠ [] := b64encode_ne_nil _ _
      rw [henc]
      unfold DecompressText
      rw [if_neg hne, hdec]
      simp [gzipBytes, gunzipBytes]
  · intro c
    rcases c with ⟨o, cp, f⟩
    cases f
    · by_cases ho : o = [] <;> simp [ccCompress, ho]
    · simp [ccCompress]

/-- Concrete instantiation of `decompress_compress_id` at the text `"go"`
(bytes 103 111). -/
theorem decompress_compress_id_witness :
    DecompressText (CompressText [103, 111]) = [103, 111] :=
  (decompress_compress_id [103, 111] (by decide)).1

/-! ## Hierarchical retriever (`pkg/retrieval/retriever.go`)

Scores are `float64`, embedded exactly over `ℚ`.  The frontier priority queue
is `container/heap` (Go standard library) instantiated at `SearchResultHeap`,
whose `Less(i, j)` compares `h[i].Score < h[j].Score`; the `up`/`down`/`Push`/
`Pop` algorithms below are the ones from `container/heap`, specialised to a
list-of-`SearchResult` backing array. -/

/-- `SearchResult` (vector-store hit), restricted to the fields the retriever
reads.  Pushed frontier entries only populate `URI` and `Score`, leaving the
zero values `false`/`""` for the rest, exactly as the Go composite literals
`SearchResult{URI: …, Score: …}` do. -/
structure SearchResult where
  uri : String
  score : ℚ
  isLeaf : Bool := false
  abstract : String := ""
deriving DecidableEq, Repr

instance : Inhabited SearchResult := ⟨⟨"", 0, false, ""⟩⟩

/-- `SearchResultHeap.Less` (retriever.go line 52): strict `<` on scores,
which makes `container/heap` — a min-heap library — pop the *lowest* score. -/
def srLess (a b : SearchResult) : Bool := a.score < b.score

/-- `container/heap.up`: sift the element at index `j` towards the root.
The Go loop terminates because the parent index decreases; `fuel` bounds the
iterations (callers pass the list length, which always suffices). -/
def heapUp (less : SearchResult → SearchResult → Bool) :
    Nat → List SearchResult → Nat → List SearchResult
  | 0, l, _ => l
  | fuel + 1, l, j =>
    let i := (j - 1) / 2
    if i = j ∨ ¬ less (l.getD j default) (l.getD i default) then l
    else
      heapUp less fuel ((l.set i (l.getD j default)).set j (l.getD i default)) i

/-- `container/heap.down`: sift the element at index `i` down within the first
`n` elements.  `fuel` bounds the iterations (the index strictly increases). -/
def heapDown (less : SearchResult → SearchResult → Bool) :
    Nat → List SearchResult → Nat → Nat → List SearchResult
  | 0, l, _, _ => l
  | fuel + 1, l, i, n =>
    let j1 := 2 * i + 1
    if n ≤ j1 then l
    else
      let j := if j1 + 1 < n ∧ less (l.getD (j1 + 1) default) (l.getD j1 default)
        then j1 + 1 else j1
      if less (l.getD j default) (l.getD i default) then
        heapDown less fuel ((l.set i (l.getD j default)).set j (l.getD i default)) j n
      else l

/-- `container/heap.Push`: append, then sift up from the last index. -/
def heapPush (less : SearchResult → SearchResult → Bool)
    (l : List SearchResult) (x : SearchResult) : List SearchResult :=
  heapUp less (l.length + 1) (l ++ [x]) l.length

/-- `container/heap.Pop`: swap the root with the last element, sift down over
the shortened prefix, and detach the last element.  Returns the popped element
and the remaining heap (the Go caller guards `Len() > 0`; on an empty heap the
model returns the `default` element). -/
def heapPop (less : SearchResult → SearchResult → Bool)
    (l : List SearchResult) : SearchResult × List SearchResult :=
  if l.isEmpty then (default, [])
  else
    let n := l.length - 1
    let l1 := (l.set 0 (l.getD n default)).set n (l.getD 0 default)
    let l2 := heapDown less l.length l1 0 n
    (l2.getD n default, l2.take n)

/-- `RetrievalResult` (retriever.go lines 64-70); `parentURI` is never set by
`recursiveSearch` and is omitted. -/
structure RetrievalResult where
  uri : String
  score : ℚ
  isLeaf : Bool
  abstract : String
deriving DecidableEq, Repr

/-- `HierarchicalRetriever.getTopK` (retriever.go lines 385-391), embedded
exactly: despite its doc comment ("returns top k results by score") it returns
the *first* `k` elements of `results` in collection order, without sorting. -/
def getTopK (results : List RetrievalResult) (k : Nat) : List RetrievalResult :=
  if results.length ≤ k then results else results.take k

/-- Insert into a score-descending list (the sort used below). -/
def insertByScoreDesc (x : RetrievalResult) :
    List RetrievalResult → List RetrievalResult
  | [] => [x]
  | y :: ys => if y.score < x.score then x :: y :: ys else y :: insertByScoreDesc x ys

/-- Modelled from the spec: "Compute the current top-`limit` candidate URIs by
score" (§4.3 step 6) — the `k` highest-scored candidates. -/
def topKByScoreSpec (results : List RetrievalResult) (k : Nat) :
    List RetrievalResult :=
  (results.foldr insertByScoreDesc []).take k

/-- `HierarchicalRetriever.mapsEqual` on URI sets represented as lists of
(distinct) keys: equal size and left-to-right key containment. -/
def mapsEqual (a b : List String) : Bool :=
  a.length == b.length && a.all (fun k => b.contains k)

/-- The final `sort.Slice(collected, …Score > …)` of `recursiveSearch`:
sort by score descending (Go's sort is unstable, so tie order is
implementation-defined; a merge sort by `≥` is one faithful refinement). -/
def sortByScoreDesc (l : List RetrievalResult) : List RetrievalResult :=
  l.foldr insertByScoreDesc []

/-- `SearchOptions`, restricted to the fields `recursiveSearch` reads. -/
structure SearchOptions where
  limit : Nat
  scoreThreshold : ℚ
  scoreGTE : Bool
deriving Repr

/-- Retriever configuration fields read by `recursiveSearch`. -/
structure RetrieverConfig where
  maxConvergenceRounds : Nat
  scorePropagationAlpha : ℚ
deriving Repr

/-- The cancellation token: `ctx.Done()` fires at the start of loop iteration
`k` (the Go loop polls the token once per iteration, at the top). -/
def cancelFires (cancelAt : Option Nat) (iter : Nat) : Bool :=
  match cancelAt with
  | none => false
  | some k => k ≤ iter

/-- One body of `recursiveSearch`'s inner `for _, child := range children`
loop: propagate the score, apply the threshold, collect a new candidate, and
queue a non-leaf child. -/
def processChild (cfg : RetrieverConfig) (opts : SearchOptions)
    (currentScore : ℚ) (st : List SearchResult × List RetrievalResult)
    (child : SearchResult) : List SearchResult × List RetrievalResult :=
  let finalScore := cfg.scorePropagationAlpha * child.score +
    (1 - cfg.scorePropagationAlpha) * currentScore
  let pass := if opts.scoreGTE then opts.scoreThreshold ≤ finalScore
    else opts.scoreThreshold < finalScore
  if ¬ pass then st
  else
    let collected :=
      if st.2.any (fun c => c.uri = child.uri) then st.2
      else st.2 ++ [⟨child.uri, finalScore, child.isLeaf, child.abstract⟩]
    let queue :=
      if child.isLeaf then st.1
      else heapPush srLess st.1 ⟨child.uri, finalScore, false, ""⟩
    (queue, collected)

/-- The main loop of `HierarchicalRetriever.recursiveSearch` (retriever.go
lines 228-353).  `search uri limit` is the vector store's children query
(filter `parent_uri = uri`, limit `2 × opts.Limit`; the store is an external
collaborator, injected as an oracle and assumed error-free — a store error
makes the Go loop `continue`).  The returned Bool reports cancellation, in
which case the collected candidates are returned unsorted and untruncated,
exactly as `return collected, ctx.Err()` does.  `fuel` bounds the iterations;
every theorem below supplies enough for the run it evaluates. -/
def recursiveSearchLoop (search : String → Nat → List SearchResult)
    (cfg : RetrieverConfig) (opts : SearchOptions) (cancelAt : Option Nat) :
    Nat → List SearchResult → List String → List RetrievalResult →
      List String → Nat → Nat → List RetrievalResult × Bool
  | 0, _, _, collected, _, _, _ => (collected, false)
  | fuel + 1, queue, visited, collected, prevTopK, rounds, iter =>
    if queue.isEmpty then ((sortByScoreDesc collected).take opts.limit, false)
    else if cancelFires cancelAt iter then (collected, true)
    else
      let popped := heapPop srLess queue
      let item := popped.1
      let queue1 := popped.2
      if visited.contains item.uri then
        recursiveSearchLoop search cfg opts cancelAt fuel queue1 visited collected
          prevTopK rounds (iter + 1)
      else
        let visited1 := item.uri :: visited
        let children := search item.uri (opts.limit * 2)
        let st := children.foldl (processChild cfg opts item.score) (queue1, collected)
        let topK := getTopK st.2 opts.limit
        let cur := topK.map (fun c => c.uri)
        if mapsEqual cur prevTopK ∧ opts.limit ≤ cur.length then
          if cfg.maxConvergenceRounds ≤ rounds + 1 then
            ((sortByScoreDesc st.2).take opts.limit, false)
          else
            recursiveSearchLoop search cfg opts cancelAt fuel st.1 visited1 st.2
              cur (rounds + 1) (iter + 1)
        else
          recursiveSearchLoop search cfg opts cancelAt fuel st.1 visited1 st.2
            cur 0 (iter + 1)

/-- `HeapItem` (retriever.go lines 443-446). -/
structure HeapItem where
  uri : String
  score : ℚ
deriving DecidableEq, Repr

/-- `recursiveSearch`: initialise the frontier heap by pushing every starting
point, then run the loop. -/
def recursiveSearch (search : String → Nat → List SearchResult)
    (cfg : RetrieverConfig) (opts : SearchOptions) (cancelAt : Option Nat)
    (startingPoints : List HeapItem) (fuel : Nat) :
    List RetrievalResult × Bool :=
  let q0 := startingPoints.foldl
    (fun q sp => heapPush srLess q ⟨sp.uri, sp.score, false, ""⟩) []
  recursiveSearchLoop search cfg opts cancelAt fuel q0 [] [] [] 0 0

/-- `MatchedContext`, restricted to the fields `convertToMatchedContexts`
populates. -/
structure MatchedContext where
  uri : String
  isLeaf : Bool
  abstract : String
  score : ℚ
deriving DecidableEq, Repr

/-- `convertToMatchedContexts` (retriever.go lines 421-435). -/
def convertToMatchedContexts (candidates : List RetrievalResult) :
    List MatchedContext :=
  candidates.map (fun c => ⟨c.uri, c.isLeaf, c.abstract, c.score⟩)

/-- `mergeStartingPoints` (retriever.go lines 175-194): global hits first,
then the root URIs not already seen, at score 0. -/
def mergeStartingPoints (globalResults : List SearchResult)
    (rootURIs : List String) : List HeapItem :=
  let start := globalResults.foldl
    (fun (p : List HeapItem × List String) r =>
      (p.1 ++ [⟨r.uri, r.score⟩], r.uri :: p.2)) ([], [])
  (rootURIs.foldl
    (fun (p : List HeapItem × List String) uri =>
      if p.2.contains uri then p else (p.1 ++ [⟨uri, 0⟩], uri :: p.2)) start).1

/-- `HierarchicalRetriever.Retrieve` (retriever.go lines 101-158), from the
starting-point merge onwards: when `recursiveSearch` returns an error (the
only error it can return is the cancellation error polled at line 231),
`Retrieve` returns `nil` plus the wrapped error — discarding the collected
candidates — otherwise it converts and returns them. -/
def Retrieve (search : String → Nat → List SearchResult)
    (cfg : RetrieverConfig) (opts : SearchOptions) (cancelAt : Option Nat)
    (globalResults : List SearchResult) (targetDirs : List String)
    (fuel : Nat) : Except String (List MatchedContext) :=
  let merged := mergeStartingPoints globalResults targetDirs
  let r := recursiveSearch search cfg opts cancelAt merged fuel
  if r.2 then .error "recursive search failed: context canceled"
  else .ok (convertToMatchedContexts r.1)

/-- C3. The frontier is not a max-heap: `SearchResultHeap.Less` compares with
`<` under `container/heap`, a min-heap library, so `Pop` returns the
*lowest*-scored frontier entry.  Concretely, with URIs `a` (score 0.9) and `b`
(score 0.1) pushed, `Pop` yields `b`; and in the main loop with frontier
`hi` (0.9) and `lo` (0.1), the first iteration visits `lo` and collects its
child — not the highest-scored `hi` the claim requires. -/
theorem frontier_pops_lowest_not_highest :
    heapPop srLess
        (heapPush srLess (heapPush srLess [] ⟨"a", 0.9, false, ""⟩)
          ⟨"b", 0.1, false, ""⟩) =
      (⟨"b", 0.1, false, ""⟩, [⟨"a", 0.9, false, ""⟩]) ∧
    (0.1 : ℚ) < 0.9 ∧
    recursiveSearch
        (fun u _ =>
          if u = "hi" then [⟨"hichild", 0.5, true, "h"⟩]
          else if u = "lo" then [⟨"lochild", 0.5, true, "l"⟩]
          else [])
        ⟨3, 0.5⟩ ⟨5, 0, false⟩ (some 1) [⟨"hi", 0.9⟩, ⟨"lo", 0.1⟩] 10 =
      ([⟨"lochild", 0.3, true, "l"⟩], true) := by
  with_unfolding_all decide

/-- C4. The convergence check does not compute the top-`limit` candidates by
score: `getTopK` (doc comment "returns top k results by score") returns the
first `k` collected candidates in collection order.  With candidates
`a` (score 0.1) then `b` (score 0.9) and `k = 1` it returns `a`, while the
top-1 by score is `b`. -/
theorem getTopK_not_by_score :
    getTopK [⟨"a", 0.1, true, "x"⟩, ⟨"b", 0.9, true, "y"⟩] 1 =
      [⟨"a", 0.1, true, "x"⟩] ∧
    topKByScoreSpec [⟨"a", 0.1, true, "x"⟩, ⟨"b", 0.9, true, "y"⟩] 1 =
      [⟨"b", 0.9, true, "y"⟩] ∧
    getTopK [⟨"a", 0.1, true, "x"⟩, ⟨"b", 0.9, true, "y"⟩] 1 ≠
      topKByScoreSpec [⟨"a", 0.1, true, "x"⟩, ⟨"b", 0.9, true, "y"⟩] 1 := by
  with_unfolding_all decide

/-- C5. Cancellation mid-traversal loses the partial candidates at the
`Retrieve` level: on the run below, the inner `recursiveSearch` dutifully
returns the candidate it had collected (`d`, score 0.4) alongside the
cancellation error, but `Retrieve` sees the non-nil error and returns only the
wrapped error, discarding the candidate; the same run without cancellation
shows the candidate that was thrown away. -/
theorem retrieve_discards_cancelled_partial :
    recursiveSearch
        (fun u _ => if u = "root" then [⟨"d", 0.8, false, "dabs"⟩] else [])
        ⟨3, 0.5⟩ ⟨5, 0, false⟩ (some 1) (mergeStartingPoints [] ["root"]) 10 =
      ([⟨"d", 0.4, false, "dabs"⟩], true) ∧
    Retrieve (fun u _ => if u = "root" then [⟨"d", 0.8, false, "dabs"⟩] else [])
        ⟨3, 0.5⟩ ⟨5, 0, false⟩ (some 1) [] ["root"] 10 =
      .error "recursive search failed: context canceled" ∧
    Retrieve (fun u _ => if u = "root" then [⟨"d", 0.8, false, "dabs"⟩] else [])
        ⟨3, 0.5⟩ ⟨5, 0, false⟩ none [] ["root"] 10 =
      .ok [⟨"d", false, "dabs", 0.4⟩] := by
  refine ⟨?_, ?_, ?_⟩
  · with_unfolding_all decide
  · with_unfolding_all rfl
  · with_unfolding_all rfl

/-! ## Memory deduper (`MemoryDeduper`, source part_007)

The LLM provider is an external collaborator: `chat group` models
`d.client.Chat` on the prompt built from `group`, returning either the chat
error or the contents of `resp.Choices`. -/

instance : Inhabited ExtractedMemory := ⟨⟨"", 0, "", "", 0⟩⟩

/-- Go's `strings.ToLower` (ASCII-exact, character-wise). -/
def lowerStr (s : String) : String := ⟨s.data.map Char.toLower⟩

/-- `calculateSimilarity` (part_007 lines 109-144): Jaccard similarity of the
sets of lower-cased words.  The Go word-count maps contribute only their key
sets, embedded as `List.dedup` of the word lists. -/
def calculateSimilarity (a b : String) : ℚ :=
  let wordsA := goFields (lowerStr a)
  let wordsB := goFields (lowerStr b)
  if wordsA.isEmpty ∨ wordsB.isEmpty then 0
  else
    let keysA := wordsA.dedup
    let keysB := wordsB.dedup
    let common := (keysA.filter (fun w => wordsB.contains w)).length
    let total := keysA.length + keysB.length - common
    if total = 0 then 1 else (common : ℚ) / (total : ℚ)

/-- `DedupDecision` (part_007 lines 22-30). -/
inductive DedupDecision where
  | merge
  | create
  | delete
  | keepboth
deriving DecidableEq, Repr

/-- The inner scan of `groupSimilar`: append `m` to the first group whose
first member is at least `threshold`-similar (the Bool reports whether a
group accepted it). -/
def tryAddToGroup (threshold : ℚ) :
    List (List ExtractedMemory) → ExtractedMemory →
      List (List ExtractedMemory) × Bool
  | [], _ => ([], false)
  | g :: rest, m =>
    if threshold ≤ calculateSimilarity m.content ((g.headD default).content) then
      ((g ++ [m]) :: rest, true)
    else
      let r := tryAddToGroup threshold rest m
      (g :: r.1, r.2)

/-- `groupSimilar` (part_007 lines 88-107). -/
def groupSimilar (threshold : ℚ) (memories : List ExtractedMemory) :
    List (List ExtractedMemory) :=
  memories.foldl
    (fun gs m =>
      let r := tryAddToGroup threshold gs m
      if r.2 then r.1 else gs ++ [[m]]) []

/-- Does `needle` occur at the start of `hay`? -/
def startsWith : List Char → List Char → Bool
  | [], _ => true
  | _ :: _, [] => false
  | n :: ns, h :: hs => n = h && startsWith ns hs

/-- Go's `strings.Contains` on the character lists. -/
def containsSub : List Char → List Char → Bool
  | [], needle => needle.isEmpty
  | h :: hs, needle => startsWith needle (h :: hs) || containsSub hs needle

/-- `strings.Contains(s, sub)`. -/
def strContains (s sub : String) : Bool := containsSub s.data sub.data

/-- `parseDecisions` (part_007 lines 187-210): every slot defaults to `keep`;
a response containing "merge" turns the first into `merge` and the rest into
`delete`; one containing "keep" leaves the defaults; anything else turns only
the first into `merge`. -/
def parseDecisions (response : String) (count : Nat) : List DedupDecision :=
  match count with
  | 0 => []
  | n + 1 =>
    let lower := lowerStr response
    if strContains lower "merge" then .merge :: List.replicate n .delete
    else if strContains lower "keep" then List.replicate (n + 1) .keepboth
    else .merge :: List.replicate n .keepboth

/-- `decideMergeOrDelete` (part_007 lines 147-184): empty group — no
decisions; singleton — `create`; otherwise ask the LLM: a chat error is
surfaced, an empty choice list yields no decisions (`nil, nil` in Go), and
otherwise the first choice is parsed. -/
def decideMergeOrDelete
    (chat : List ExtractedMemory → Except Unit (List String))
    (memories : List ExtractedMemory) :
    Except Unit (Option (List DedupDecision)) :=
  match memories with
  | [] => .ok none
  | [_] => .ok (some [.create])
  | _ =>
    match chat memories with
    | .error e => .error e
    | .ok [] => .ok none
    | .ok (content :: _) => .ok (some (parseDecisions content memories.length))

/-- `simpleMerge` (part_007 lines 213-230): the highest-importance member
(first wins ties); `default` stands for the Go `nil` on an empty group,
which `Dedup` never produces. -/
def simpleMerge : List ExtractedMemory → ExtractedMemory
  | [] => default
  | m :: rest =>
    rest.foldl (fun best x => if best.importance < x.importance then x else best) m

/-- The `for i, decision := range decisions` loop of `Dedup` (part_007 lines
70-81): `merge` and `create` keep `group[i]`, `keep` keeps it only at index 0,
`delete` drops it. -/
def applyDecisions (group : List ExtractedMemory) :
    Nat → List DedupDecision → List ExtractedMemory
  | _, [] => []
  | i, d :: ds =>
    match d with
    | .merge => group.getD i default :: applyDecisions group (i + 1) ds
    | .create => group.getD i default :: applyDecisions group (i + 1) ds
    | .keepboth =>
      if i = 0 then group.getD i default :: applyDecisions group (i + 1) ds
      else applyDecisions group (i + 1) ds
    | .delete => applyDecisions group (i + 1) ds

/-- The contribution of one group to `Dedup`'s result: a singleton group is
kept; otherwise the LLM decisions are applied, a chat error falling back to
`simpleMerge`, and an absent decision list contributing nothing. -/
def dedupGroupStep (chat : List ExtractedMemory → Except Unit (List String))
    (group : List ExtractedMemory) : List ExtractedMemory :=
  if group.length ≤ 1 then [group.headD default]
  else
    match decideMergeOrDelete chat group with
    | .error _ => [simpleMerge group]
    | .ok none => []
    | .ok (some ds) => applyDecisions group 0 ds

/-- `MemoryDeduper.Dedup` (part_007 lines 44-85). -/
def Dedup (chat : List ExtractedMemory → Except Unit (List String))
    (threshold : ℚ) (memories : List ExtractedMemory) : List ExtractedMemory :=
  if memories.length ≤ 1 then memories
  else
    (groupSimilar threshold memories).foldl
      (fun result group => result ++ dedupGroupStep chat group) []

/-- The shared-distinct-word count of the Jaccard computation is symmetric. -/
theorem dedup_filter_contains_length_comm (A B : List String) :
    (A.dedup.filter (fun w => B.contains w)).length =
      (B.dedup.filter (fun w => A.contains w)).length := by
  have hA : (A.dedup.filter (fun w => B.contains w)).Nodup := A.nodup_dedup.filter _
  have hB : (B.dedup.filter (fun w => A.contains w)).Nodup := B.nodup_dedup.filter _
  rw [← List.toFinset_card_of_nodup hA, ← List.toFinset_card_of_nodup hB]
  congr 1
  ext x
  simp only [List.mem_toFinset, List.mem_filter, List.mem_dedup]
  constructor
  · rintro ⟨h1, h2⟩
    refine ⟨by simpa using h2, by simpa using h1⟩
  · rintro ⟨h1, h2⟩
    refine ⟨by simpa using h2, by simpa using h1⟩

/-- `calculateSimilarity` is symmetric. -/
theorem calculateSimilarity_comm (a b : String) :
    calculateSimilarity a b = calculateSimilarity b a := by
  unfold calculateSimilarity
  dsimp only
  have hcommon := dedup_filter_contains_length_comm
    (goFields (lowerStr a)) (goFields (lowerStr b))
  by_cases hA : (goFields (lowerStr a)).isEmpty <;>
    by_cases hB : (goFields (lowerStr b)).isEmpty
  · simp [hA, hB]
  · simp [hA, hB]
  · simp [hA, hB]
  · rw [hcommon, Nat.add_comm (goFields (lowerStr a)).dedup.length]
    simp [hA, hB]

/-- Behaviour of the group scan: groups stay non-empty, group heads are
unchanged, total size grows by one exactly when a group accepted the memory,
and on rejection the groups are returned untouched with the new memory
dissimilar to every group head. -/
theorem tryAddToGroup_spec (threshold : ℚ) :
    ∀ (gs : List (List ExtractedMemory)) (m : ExtractedMemory),
      (∀ g ∈ gs, g ≠ []) →
      (∀ g ∈ (tryAddToGroup threshold gs m).1, g ≠ []) ∧
      ((tryAddToGroup threshold gs m).1).map (fun g => g.headD default) =
        gs.map (fun g => g.headD default) ∧
      (((tryAddToGroup threshold gs m).1).map List.length).sum =
        ((gs.map List.length).sum + if (tryAddToGroup threshold gs m).2 then 1 else 0) ∧
      ((tryAddToGroup threshold gs m).2 = false →
        (tryAddToGroup threshold gs m).1 = gs ∧
        ∀ g ∈ gs,
          calculateSimilarity m.content ((g.headD default).content) < threshold) := by
  intro gs
  induction gs with
  | nil =>
    intro m _
    refine ⟨by simp [tryAddToGroup], by simp [tryAddToGroup],
      by simp [tryAddToGroup], fun _ => ⟨rfl, by simp⟩⟩
  | cons g rest ih =>
    intro m hne
    have hg : g ≠ [] := hne g (List.mem_cons_self g rest)
    have hrest : ∀ x ∈ rest, x ≠ [] := fun x hx => hne x (List.mem_cons_of_mem g hx)
    by_cases hsim :
        threshold ≤ calculateSimilarity m.content ((g.headD default).content)
    · have hstep : tryAddToGroup threshold (g :: rest) m = ((g ++ [m]) :: rest, true) := by
        unfold tryAddToGroup
        rw [if_pos hsim]
      rw [hstep]
      refine ⟨?_, ?_, ?_, ?_⟩
      · intro x hx
        rcases List.mem_cons.mp hx with h | h
        · subst h; simp
        · exact hrest x h
      · have hhead : (g ++ [m]).headD default = g.headD default := by
          cases g with
          | nil => exact absurd rfl hg
          | cons y ys => rfl
        simp only [List.map_cons, hhead]
      · simp only [List.map_cons, List.sum_cons, List.length_append,
          List.length_cons, List.length_nil]
        simp only [if_true]
        omega
      · intro hfalse; cases hfalse
    · have hstep : tryAddToGroup threshold (g :: rest) m =
          (g :: (tryAddToGroup threshold rest m).1,
            (tryAddToGroup threshold rest m).2) := by
        simp only [tryAddToGroup]
        rw [if_neg hsim]
      obtain ⟨ih1, ih2, ih3, ih4⟩ := ih m hrest
      rw [hstep]
      refine ⟨?_, ?_, ?_, ?_⟩
      · intro x hx
        rcases List.mem_cons.mp hx with h | h
        · subst h; exact hg
        · exact ih1 x h
      · simp only [List.map_cons, ih2]
      · simp only [List.map_cons, List.sum_cons, ih3]
        omega
      · intro hfalse
        obtain ⟨heq, hall⟩ := ih4 hfalse
        refine ⟨by rw [heq], ?_⟩
        intro x hx
        rcases List.mem_cons.mp hx with h | h
        · subst h; exact lt_of_not_le hsim
        · exact hall x h

/-- Invariant of `groupSimilar`: every group is non-empty, the group sizes sum
to the input size, and the group representatives (first members) are pairwise
dissimilar — a later representative was rejected by every earlier group. -/
theorem groupSimilar_inv (threshold : ℚ) (memories : List ExtractedMemory) :
    (∀ g ∈ groupSimilar threshold memories, g ≠ []) ∧
    ((groupSimilar threshold memories).map List.length).sum = memories.length ∧
    ((groupSimilar threshold memories).map (fun g => g.headD default)).Pairwise
      (fun x y => calculateSimilarity x.content y.content < threshold) := by
  suffices h : ∀ (M : List ExtractedMemory) (gs : List (List ExtractedMemory)),
      (∀ g ∈ gs, g ≠ []) →
      ((gs.map (fun g => g.headD default)).Pairwise
        (fun x y => calculateSimilarity x.content y.content < threshold)) →
      (∀ g ∈ M.foldl
          (fun gs m =>
            let r := tryAddToGroup threshold gs m
            if r.2 then r.1 else gs ++ [[m]]) gs, g ≠ []) ∧
      (((M.foldl
          (fun gs m =>
            let r := tryAddToGroup threshold gs m
            if r.2 then r.1 else gs ++ [[m]]) gs).map List.length).sum =
        (gs.map List.length).sum + M.length) ∧
      ((M.foldl
          (fun gs m =>
            let r := tryAddToGroup threshold gs m
            if r.2 then r.1 else gs ++ [[m]]) gs).map
            (fun g => g.headD default)).Pairwise
        (fun x y => calculateSimilarity x.content y.content < threshold) by
    obtain ⟨h1, h2, h3⟩ := h memories [] (by simp) (by simp)
    exact ⟨h1, by simpa using h2, h3⟩
  intro M
  induction M with
  | nil =>
    intro gs hne hpw
    exact ⟨hne, by simp, hpw⟩
  | cons m M ih =>
    intro gs hne hpw
    obtain ⟨t1, t2, t3, t4⟩ := tryAddToGroup_spec threshold gs m hne
    by_cases hacc : (tryAddToGroup threshold gs m).2
    · have hstep :
          (m :: M).foldl
              (fun gs m =>
                let r := tryAddToGroup threshold gs m
                if r.2 then r.1 else gs ++ [[m]]) gs =
            M.foldl
              (fun gs m =>
                let r := tryAddToGroup threshold gs m
                if r.2 then r.1 else gs ++ [[m]]) (tryAddToGroup threshold gs m).1 := by
        simp only [List.foldl_cons, hacc, if_true]
      rw [hstep]
      have hpw' : (((tryAddToGroup threshold gs m).1).map
          (fun g => g.headD default)).Pairwise
          (fun x y => calculateSimilarity x.content y.content < threshold) := by
        rw [t2]; exact hpw
      obtain ⟨r1, r2, r3⟩ := ih (tryAddToGroup threshold gs m).1 t1 hpw'
      refine ⟨r1, ?_, r3⟩
      rw [r2, t3]
      simp [hacc]
      omega
    · have hb : (tryAddToGroup threshold gs m).2 = false := by
        simpa using hacc
      obtain ⟨heq, hall⟩ := t4 hb
      have hstep :
          (m :: M).foldl
              (fun gs m =>
                let r := tryAddToGroup threshold gs m
                if r.2 then r.1 else gs ++ [[m]]) gs =
            M.foldl
              (fun gs m =>
                let r := tryAddToGroup threshold gs m
                if r.2 then r.1 else gs ++ [[m]]) (gs ++ [[m]]) := by
        simp only [List.foldl_cons, hb]
        rfl
      rw [hstep]
      have hne' : ∀ g ∈ gs ++ [[m]], g ≠ [] := by
        intro g hgmem
        rcases List.mem_append.mp hgmem with h | h
        · exact hne g h
        · simp only [List.mem_singleton] at h
          subst h
          simp
      have hpw' : ((gs ++ [[m]]).map (fun g => g.headD default)).Pairwise
          (fun x y => calculateSimilarity x.content y.content < threshold) := by
        rw [List.map_append]
        rw [List.pairwise_append]
        refine ⟨hpw, by simp, ?_⟩
        intro x hx y hy
        simp only [List.map_cons, List.map_nil, List.mem_singleton] at hy
        subst hy
        obtain ⟨g, hgmem, hgx⟩ := List.mem_map.mp hx
        subst hgx
        rw [calculateSimilarity_comm]
        exact hall g hgmem
      obtain ⟨r1, r2, r3⟩ := ih (gs ++ [[m]]) hne' hpw'
      refine ⟨r1, ?_, r3⟩
      rw [r2]
      simp
      omega

theorem parseDecisions_length (response : String) (count : Nat) :
    (parseDecisions response count).length = count := by
  cases count with
  | zero => rfl
  | succ n =>
    unfold parseDecisions
    by_cases h1 : strContains (lowerStr response) "merge"
    · simp [h1]
    · by_cases h2 : strContains (lowerStr response) "keep" <;> simp [h1, h2]

theorem applyDecisions_length_le (group : List ExtractedMemory) :
    ∀ (ds : List DedupDecision) (i : Nat),
      (applyDecisions group i ds).length ≤ ds.length := by
  intro ds
  induction ds with
  | nil => intro i; simp [applyDecisions]
  | cons d ds ih =>
    intro i
    cases d with
    | merge => simpa [applyDecisions] using Nat.succ_le_succ (ih (i + 1))
    | create => simpa [applyDecisions] using Nat.succ_le_succ (ih (i + 1))
    | delete =>
      simp only [applyDecisions, List.length_cons]
      exact Nat.le_succ_of_le (ih (i + 1))
    | keepboth =>
      by_cases hi : i = 0
      · simpa [applyDecisions, hi] using Nat.succ_le_succ (ih (i + 1))
      · simp only [applyDecisions, if_neg hi, List.length_cons]
        exact Nat.le_succ_of_le (ih (i + 1))

theorem applyDecisions_replicate_delete (group : List ExtractedMemory) :
    ∀ (n i : Nat), applyDecisions group i (List.replicate n .delete) = [] := by
  intro n
  induction n with
  | zero => intro i; rfl
  | succ k ih =>
    intro i
    simp only [List.replicate_succ, applyDecisions]
    exact ih (i + 1)

theorem applyDecisions_replicate_keepboth (group : List ExtractedMemory) :
    ∀ (n i : Nat), i ≠ 0 →
      applyDecisions group i (List.replicate n .keepboth) = [] := by
  intro n
  induction n with
  | zero => intro i _; rfl
  | succ k ih =>
    intro i hi
    simp only [List.replicate_succ, applyDecisions, if_neg hi]
    exact ih (i + 1) (by omega)

/-- Applying the decisions parsed from any LLM response keeps exactly the
group's first member: `parseDecisions` only ever marks index 0 as kept
(`merge` there and `delete` elsewhere, all-`keep`, or `merge` at 0 with `keep`
defaults), and `keep` survives only at index 0. -/
theorem applyDecisions_parse (response : String) (group : List ExtractedMemory)
    (hg : group ≠ []) :
    applyDecisions group 0 (parseDecisions response group.length) =
      [group.headD default] := by
  obtain ⟨x, xs, rfl⟩ : ∃ x xs, group = x :: xs := by
    cases group with
    | nil => exact absurd rfl hg
    | cons x xs => exact ⟨x, xs, rfl⟩
  simp only [List.length_cons]
  unfold parseDecisions
  by_cases h1 : strContains (lowerStr response) "merge"
  · simp only [h1, if_true, applyDecisions, List.getD]
    rw [applyDecisions_replicate_delete]
    rfl
  · by_cases h2 : strContains (lowerStr response) "keep"
    · simp only [h1, h2, if_false, if_true, List.replicate_succ, applyDecisions,
        if_pos rfl, List.getD]
      rw [applyDecisions_replicate_keepboth _ xs.length 1 one_ne_zero]
      rfl
    · simp only [h1, h2, if_false, applyDecisions, List.getD]
      rw [applyDecisions_replicate_keepboth _ xs.length 1 one_ne_zero]
      rfl

/-- A group of at least two members: `decideMergeOrDelete` consults the LLM. -/
theorem decideMergeOrDelete_eq (chat : List ExtractedMemory → Except Unit (List String))
    (a b : ExtractedMemory) (rest : List ExtractedMemory) :
    decideMergeOrDelete chat (a :: b :: rest) =
      match chat (a :: b :: rest) with
      | .error e => .error e
      | .ok [] => .ok none
      | .ok (content :: _) =>
        .ok (some (parseDecisions content (a :: b :: rest).length)) := rfl

/-- Under an error-free LLM, one group contributes either nothing or exactly
its first member to the dedup output. -/
theorem dedupGroupStep_head_or_empty
    (chat : List ExtractedMemory → Except Unit (List String))
    (group : List ExtractedMemory) (hg : group ≠ [])
    (hok : ∀ x, ∃ cs, chat x = .ok cs) :
    dedupGroupStep chat group = [] ∨
      dedupGroupStep chat group = [group.headD default] := by
  unfold dedupGroupStep
  by_cases hlen : group.length ≤ 1
  · right; rw [if_pos hlen]
  · rw [if_neg hlen]
    obtain ⟨a, b, rest, rfl⟩ : ∃ a b rest, group = a :: b :: rest := by
      cases group with
      | nil => exact absurd rfl hg
      | cons a t =>
        cases t with
        | nil => exact absurd (by simp) hlen
        | cons b rest => exact ⟨a, b, rest, rfl⟩
    obtain ⟨cs, hcs⟩ := hok (a :: b :: rest)
    rw [decideMergeOrDelete_eq, hcs]
    cases cs with
    | nil => left; rfl
    | cons content _ =>
      right
      simp only []
      exact applyDecisions_parse content (a :: b :: rest) (by simp)

/-- One group contributes at most its own size to the dedup output. -/
theorem dedupGroupStep_length_le
    (chat : List ExtractedMemory → Except Unit (List String))
    (group : List ExtractedMemory) (hg : group ≠ []) :
    (dedupGroupStep chat group).length ≤ group.length := by
  have hpos : 1 ≤ group.length := by
    cases group with
    | nil => exact absurd rfl hg
    | cons a t => simp
  unfold dedupGroupStep
  by_cases hlen : group.length ≤ 1
  · rw [if_pos hlen]; simpa using hpos
  · rw [if_neg hlen]
    obtain ⟨a, b, rest, rfl⟩ : ∃ a b rest, group = a :: b :: rest := by
      cases group with
      | nil => exact absurd rfl hg
      | cons a t =>
        cases t with
        | nil => exact absurd (by simp) hlen
        | cons b rest => exact ⟨a, b, rest, rfl⟩
    rw [decideMergeOrDelete_eq]
    cases hcs : chat (a :: b :: rest) with
    | error e => simp
    | ok cs =>
      cases cs with
      | nil => simp
      | cons content _ =>
        simp only []
        calc (applyDecisions (a :: b :: rest) 0
                (parseDecisions content (a :: b :: rest).length)).length
            ≤ (parseDecisions content (a :: b :: rest).length).length :=
              applyDecisions_length_le _ _ _
          _ = (a :: b :: rest).length := parseDecisions_length _ _

theorem foldl_append_join (f : List ExtractedMemory → List ExtractedMemory) :
    ∀ (gs : List (List ExtractedMemory)) (init : List ExtractedMemory),
      gs.foldl (fun r g => r ++ f g) init = init ++ (gs.map f).flatten := by
  intro gs
  induction gs with
  | nil => intro init; simp
  | cons g rest ih =>
    intro init
    simp only [List.foldl_cons, List.map_cons, List.flatten_cons, ih, List.append_assoc]

theorem join_sub_heads (f : List ExtractedMemory → List ExtractedMemory)
    (gs : List (List ExtractedMemory))
    (h : ∀ g ∈ gs, f g = [] ∨ f g = [g.headD default]) :
    ((gs.map f).flatten).Sublist (gs.map (fun g => g.headD default)) := by
  induction gs with
  | nil => simp
  | cons g rest ih =>
    have hrest := ih (fun x hx => h x (List.mem_cons_of_mem g hx))
    rcases h g (List.mem_cons_self g rest) with hg | hg
    · simp only [List.map_cons, List.flatten_cons, hg, List.nil_append]
      exact hrest.cons _
    · simp only [List.map_cons, List.flatten_cons, hg, List.cons_append, List.nil_append]
      exact hrest.cons₂ _

/-- C8 as amended.  For every input, every threshold and every LLM behaviour,
`Dedup` never lengthens its input; and whenever the LLM decision calls all
succeed (the spec's path (a)), no two distinct surviving memories are
`threshold`-similar — at most one representative of any similar pair remains.
(Under the documented error fallback, which keeps a group's highest-importance
member instead of its representative, two similar memories can both survive —
see the counterexample.) -/
theorem dedup_spec (chat : List ExtractedMemory → Except Unit (List String))
    (threshold : ℚ) (memories : List ExtractedMemory) :
    (Dedup chat threshold memories).length ≤ memories.length ∧
    ((∀ x, ∃ cs, chat x = .ok cs) →
      (Dedup chat threshold memories).Pairwise
        (fun a b => calculateSimilarity a.content b.content < threshold)) := by
  unfold Dedup
  by_cases hsmall : memories.length ≤ 1
  · rw [if_pos hsmall]
    refine ⟨le_refl _, fun _ => ?_⟩
    cases memories with
    | nil => exact List.Pairwise.nil
    | cons a t =>
      cases t with
      | nil => simp
      | cons b t2 => simp at hsmall
  · rw [if_neg hsmall]
    obtain ⟨hne, hsum, hpw⟩ := groupSimilar_inv threshold memories
    rw [foldl_append_join (dedupGroupStep chat) (groupSimilar threshold memories) []]
    simp only [List.nil_append]
    constructor
    · rw [List.length_flatten, ← hsum, List.map_map]
      apply List.sum_le_sum
      intro g hgmem
      exact dedupGroupStep_length_le chat g (hne g hgmem)
    · intro hok
      have hsub := join_sub_heads (dedupGroupStep chat) (groupSimilar threshold memories)
        (fun g hgm => dedupGroupStep_head_or_empty chat g (hne g hgm) hok)
      exact List.Pairwise.sublist hsub hpw

/-- The three concrete memories of C8's counterexample: `memB` shares ten of
eleven distinct words with `memX` (Jaccard 10/11) and ten of twelve with
`memA` (Jaccard 10/12), while `memX` and `memA` share ten of thirteen
(Jaccard 10/13 < 0.8). -/
def memX : ExtractedMemory :=
  ⟨"w1 w2 w3 w4 w5 w6 w7 w8 w9 wz y1", 0.5, "preference", "s", 0⟩

def memA : ExtractedMemory :=
  ⟨"w1 w2 w3 w4 w5 w6 w7 w8 w9 wz z1 z2", 0.5, "preference", "s", 0⟩

def memB : ExtractedMemory :=
  ⟨"w1 w2 w3 w4 w5 w6 w7 w8 w9 wz", 0.9, "preference", "s", 0⟩

/-- C8 counterexample.  With the LLM chat call failing (the fallback path the
spec itself documents), `Dedup` groups `memB` with `memX` (similarity 10/11 ≥
0.8), the fallback keeps the group's highest-importance member `memB` rather
than its representative `memX`, and the singleton group keeps `memA` — so both
`memA` and `memB`, whose similarity 10/12 exceeds the 0.8 threshold, appear in
the output, falsifying "only one representative of a ≥-threshold pair appears".
The input list is no longer than the output, so only the pair clause fails. -/
theorem dedup_keeps_similar_pair :
    (0.8 : ℚ) ≤ calculateSimilarity memA.content memB.content ∧
    Dedup (fun _ => .error ()) 0.8 [memX, memA, memB] = [memB, memA] ∧
    memA ∈ Dedup (fun _ => .error ()) 0.8 [memX, memA, memB] ∧
    memB ∈ Dedup (fun _ => .error ()) 0.8 [memX, memA, memB] ∧
    memA ≠ memB := by
  with_unfolding_all decide

/-- Concrete instantiation of `dedup_spec` with an LLM that always answers
`"merge"`: the output is no longer than the input and pairwise dissimilar. -/
theorem dedup_spec_witness :
    (Dedup (fun _ => .ok ["merge"]) 0.8 [memX, memA, memB]).length ≤
      ([memX, memA, memB] : List ExtractedMemory).length ∧
    (Dedup (fun _ => .ok ["merge"]) 0.8 [memX, memA, memB]).Pairwise
      (fun a b => calculateSimilarity a.content b.content < 0.8) :=
  ⟨(dedup_spec (fun _ => .ok ["merge"]) 0.8 [memX, memA, memB]).1,
    (dedup_spec (fun _ => .ok ["merge"]) 0.8 [memX, memA, memB]).2
      (fun _ => ⟨["merge"], rfl⟩)⟩

end GoViking
